import Mathlib

/-! An in-memory item store served over HTTP (`hello.go`).

A shallow embedding of the two request handlers of `hello.go`, `itemsHandler`
and `itemHandler`, together with the pieces of the Go runtime and standard
library they rest on:

* Go strings are byte sequences, so that slicing a path at a byte offset is
  what the program does;
* the global `items` map is a finite map with no order on its entries; the
  order in which `range` visits them is chosen by the runtime and is an
  explicit argument of the handler;
* a slice is either `nil` or a sequence of elements, since the JSON encoder
  tells the two apart;
* the `http.ResponseWriter` is a value threaded through the handler: the
  status line is fixed by the first `WriteHeader` or `Write`;
* the JSON decoder of the request body is an argument of the handlers.
-/

namespace ItemStore

/-! ## Go values -/

/-- Go `string`: an immutable sequence of bytes. -/
abbrev GoString := List UInt8

/-- The bytes of a string literal of the program. Every literal of `hello.go`
is ASCII, where each character is the single byte of its code point. -/
def lit (s : String) : GoString := s.toList.map (fun c => UInt8.ofNat c.toNat)

/-- Go slice expression `s[lo:]` on a string: the bytes from offset `lo` on;
a run-time panic (`none`) when `lo` exceeds the length. -/
def sliceFrom (s : GoString) (lo : Nat) : Option GoString :=
  if lo ≤ s.length then some (s.drop lo) else none

/-- Go slice value of element type `α`: the `nil` slice, or a slice over some
(possibly empty) sequence of elements. -/
inductive Slice (α : Type) where
  | nil : Slice α
  | mk (elems : List α) : Slice α
deriving DecidableEq, Repr

/-- The elements of a slice; the `nil` slice has none. -/
def Slice.toList {α : Type} : Slice α → List α
  | .nil => []
  | .mk elems => elems

/-- Go builtin `append(s, x)`: the result holds the elements of `s` followed
by `x`, and is never `nil`. -/
def Slice.append {α : Type} (s : Slice α) (x : α) : Slice α :=
  .mk (s.toList ++ [x])

/-- The record `Item` of `hello.go`. -/
structure Item where
  ID : GoString
  Name : GoString
deriving DecidableEq, Repr

/-- Go `map[string]Item`: a finite map from byte strings to items, with no
order on its entries. -/
abbrev Store := Finmap (fun _ : GoString => Item)

/-- An entry of the map: a key together with the item stored under it. -/
abbrev Entry := Sigma (fun _ : GoString => Item)

/-- The global `items` as `make(map[string]Item)` leaves it at process start. -/
def emptyStore : Store := ∅

/-- The order in which a `range` loop visits a map. The runtime visits every
entry exactly once, in an order of its own choosing. -/
structure RangeOrder where
  visit : Store → List Entry
  complete : ∀ s : Store, (visit s : Multiset Entry) = s.entries

/-! ## JSON values and `encoding/json` -/

/-- JSON values as written by `json.Encoder.Encode`. -/
inductive Json where
  | null : Json
  | str (s : GoString) : Json
  | arr (elems : List Json) : Json
  | obj (members : List (String × Json)) : Json

/-- How `encoding/json` marshals an `Item`: an object with the members named
by the struct tags, in field order. -/
def marshalItem (i : Item) : Json :=
  .obj [("id", .str i.ID), ("name", .str i.Name)]

/-- How `encoding/json` marshals a `[]Item`: the `nil` slice is written as
`null`, every other slice as the array of its elements. -/
def marshalItems : Slice Item → Json
  | .nil => .null
  | .mk elems => .arr (elems.map marshalItem)

/-- The outcome of `json.NewDecoder(r.Body).Decode(&v)` for `v` a zero `Item`:
the text of the error, or the decoded item. It depends on the body alone. -/
abbrev Decoder := GoString → Except GoString Item

/-! ## `net/http` -/

/-- A piece of response body; each is followed by a newline on the wire. -/
inductive Chunk where
  | text (msg : GoString) : Chunk
  | json (v : Json) : Chunk

/-- State of an `http.ResponseWriter`: the status code once the header has
been written, and the body written so far. -/
structure ResponseWriter where
  status : Option Nat
  body : List Chunk

/-- The writer handed to a handler: nothing written yet. -/
def ResponseWriter.fresh : ResponseWriter := ⟨none, []⟩

/-- Calling `w.WriteHeader(code)`: fixes the status unless one is already fixed. -/
def ResponseWriter.WriteHeader (w : ResponseWriter) (code : Nat) : ResponseWriter :=
  match w.status with
  | none => { w with status := some code }
  | some _ => w

/-- Calling `w.Write`: a first write without a header implies status 200. -/
def ResponseWriter.Write (w : ResponseWriter) (c : Chunk) : ResponseWriter :=
  let w1 := w.WriteHeader 200
  { w1 with body := w1.body ++ [c] }

/-- The status the client receives: 200 when the handler never set one. -/
def ResponseWriter.code (w : ResponseWriter) : Nat := w.status.getD 200

/-- Library `http.Error(w, msg, code)`. -/
def httpError (w : ResponseWriter) (msg : GoString) (code : Nat) : ResponseWriter :=
  (w.WriteHeader code).Write (.text msg)

/-- Call `json.NewEncoder(w).Encode(v)` with `v` already marshalled. -/
def encode (w : ResponseWriter) (v : Json) : ResponseWriter :=
  w.Write (.json v)

def MethodGet : GoString := lit "GET"
def MethodPost : GoString := lit "POST"
def MethodPut : GoString := lit "PUT"
def MethodDelete : GoString := lit "DELETE"

def StatusOK : Nat := 200
def StatusCreated : Nat := 201
def StatusNoContent : Nat := 204
def StatusBadRequest : Nat := 400
def StatusNotFound : Nat := 404
def StatusMethodNotAllowed : Nat := 405

/-- The parts of `*http.Request` the handlers read. -/
structure Request where
  Method : GoString
  Path : GoString
  Body : GoString

/-! ## The handlers -/

/-- The loop `for _, item := range items { itemList = append(itemList, item) }`
started from `var itemList []Item`. -/
def collect (visited : List Entry) : Slice Item :=
  visited.foldl (fun itemList e => itemList.append e.2) Slice.nil

/-- Handler `itemsHandler` of `hello.go`, registered for `/items`. -/
def itemsHandler (dec : Decoder) (ro : RangeOrder) (items : Store) (w : ResponseWriter)
    (r : Request) : Store × ResponseWriter :=
  if r.Method = MethodGet then
    let itemList := collect (ro.visit items)
    (items, encode w (marshalItems itemList))
  else if r.Method = MethodPost then
    match dec r.Body with
    | .error err => (items, httpError w err StatusBadRequest)
    | .ok newItem =>
      (items.insert newItem.ID newItem,
        encode (w.WriteHeader StatusCreated) (marshalItem newItem))
  else
    (items, httpError w (lit "Method not allowed") StatusMethodNotAllowed)

/-- The pattern `/items/` under which `itemHandler` is registered. -/
def itemsRoot : GoString := lit "/items/"

/-- The statement `id := r.URL.Path[len("/items/"):]` of `itemHandler`. -/
def pathID (r : Request) : Option GoString :=
  sliceFrom r.Path itemsRoot.length

/-- Handler `itemHandler` of `hello.go`, registered for `/items/`. The result
is `none` when the slice expression on the path panics. -/
def itemHandler (dec : Decoder) (items : Store) (w : ResponseWriter)
    (r : Request) : Option (Store × ResponseWriter) :=
  match pathID r with
  | none => none
  | some id =>
    let found := items.lookup id
    if r.Method = MethodGet then
      match found with
      | none => some (items, httpError w (lit "Item not found") StatusNotFound)
      | some item => some (items, encode w (marshalItem item))
    else if r.Method = MethodPut then
      match dec r.Body with
      | .error err => some (items, httpError w err StatusBadRequest)
      | .ok updatedItem =>
        let updatedItem : Item := { updatedItem with ID := id }
        some (items.insert id updatedItem, encode w (marshalItem updatedItem))
    else if r.Method = MethodDelete then
      match found with
      | none => some (items, httpError w (lit "Item not found") StatusNotFound)
      | some _ => some (items.erase id, w.WriteHeader StatusNoContent)
    else
      some (items, httpError w (lit "Method not allowed") StatusMethodNotAllowed)

/-! ## A computable range order -/

/-- Order on keys used by `sortedOrder`: lexicographic on the byte values. -/
def keyLE (a b : GoString) : Prop := a.map UInt8.toNat ≤ b.map UInt8.toNat

instance : DecidableRel keyLE := fun a b =>
  inferInstanceAs (Decidable (a.map UInt8.toNat ≤ b.map UInt8.toNat))

instance : IsTotal GoString keyLE :=
  ⟨fun a b => le_total (a.map UInt8.toNat) (b.map UInt8.toNat)⟩

instance : IsTrans GoString keyLE :=
  ⟨fun _ _ _ h1 h2 => le_trans (α := List Nat) h1 h2⟩

instance : IsAntisymm GoString keyLE :=
  ⟨fun _ _ h1 h2 =>
    List.map_injective_iff.mpr (fun _ _ h => UInt8.ext h) (le_antisymm (α := List Nat) h1 h2)⟩

/-- Visit the entries by increasing key. -/
def sortedVisit (s : Store) : List Entry :=
  (s.keys.sort keyLE).filterMap (fun k => (s.lookup k).map (Sigma.mk k))

/-- One admissible range order: by increasing key. -/
def sortedOrder : RangeOrder where
  visit := sortedVisit
  complete := by
    intro s
    have nd : (sortedVisit s).Nodup := by
      apply List.Nodup.filterMap _ (Finset.sort_nodup _ _)
      intro a a' b ha ha'
      simp only [Option.mem_def, Option.map_eq_some'] at ha ha'
      obtain ⟨_, _, rfl⟩ := ha
      obtain ⟨_, _, h⟩ := ha'
      exact (congrArg Sigma.fst h).symm
    refine (Multiset.Nodup.ext (Multiset.coe_nodup.mpr nd) s.nodup_entries).mpr ?_
    rintro ⟨k, v⟩
    simp only [sortedVisit, Multiset.mem_coe, List.mem_filterMap, Finset.mem_sort,
      Finmap.mem_keys, Option.map_eq_some']
    rw [← Finmap.mem_lookup_iff]
    constructor
    · rintro ⟨k', _, v', hv', h⟩
      cases h
      exact hv'
    · intro h
      exact ⟨k, Finmap.mem_of_lookup_eq_some h, v, h, rfl⟩

/-- A decoder for examples: a body of two bytes `[i, n]` decodes to the item
with id `[i]` and name `[n]`, every other body is rejected. -/
def sampleDecoder : Decoder := fun b =>
  match b with
  | [i, n] => .ok ⟨[i], [n]⟩
  | _ => .error (lit "invalid character")

/-! ## Sequences of requests -/

/-- One request as the server dispatches it: to `itemsHandler`, with the range
order the runtime picks for it, or to `itemHandler`. -/
inductive Call where
  | items (ro : RangeOrder) (r : Request) : Call
  | item (r : Request) : Call

/-- The store after one call has been served on a fresh writer. The only panic
of `itemHandler` is raised by its first statement, before the map is touched,
so a call that panics leaves the store as it was. -/
def serve (dec : Decoder) (items : Store) : Call → Store
  | .items ro r => (itemsHandler dec ro items ResponseWriter.fresh r).1
  | .item r =>
    match itemHandler dec items ResponseWriter.fresh r with
    | none => items
    | some (after, _) => after

/-- The store after a sequence of calls served one after the other. -/
def serveAll (dec : Decoder) (items : Store) (calls : List Call) : Store :=
  calls.foldl (serve dec) items

/-- The POST request on the collection endpoint with the given body. -/
def postRequest (body : GoString) : Request := ⟨MethodPost, lit "/items", body⟩

/-- Serve one POST per body on the collection endpoint, one after the other:
the final store and the responses in the order of the requests. -/
def postEach (dec : Decoder) (ro : RangeOrder) : Store → List GoString →
    Store × List ResponseWriter
  | items, [] => (items, [])
  | items, body :: rest =>
    let served := itemsHandler dec ro items ResponseWriter.fresh (postRequest body)
    let later := postEach dec ro served.1 rest
    (later.1, served.2 :: later.2)

/-- The response a POST writes for an item it has stored. -/
def created (item : Item) : ResponseWriter :=
  ⟨some StatusCreated, [Chunk.json (marshalItem item)]⟩

/-! ## Concurrent POSTs

`net/http` serves every request in a goroutine of its own. The POST branch of
`itemsHandler` reads and writes the shared map only between `mu.Lock()` and
`mu.Unlock()`, and every other access to the map in the program holds the same
mutex, so that critical section is one atomic step; what precedes and what
follows it works on the locals of the goroutine. -/

/-- Program points of the POST branch of `itemsHandler`. -/
inductive PostPc where
  | start : PostPc
  | decoded : PostPc
  | stored : PostPc
  | rejected : PostPc
  | returned : PostPc
deriving DecidableEq, Repr

/-- A goroutine serving a POST: its request, its program point, and its
locals `newItem` and `w`. -/
structure PostThread where
  r : Request
  pc : PostPc
  newItem : Item
  w : ResponseWriter

/-- A goroutine at the entry of the handler: `var newItem Item` is the zero
item and nothing is written. -/
def PostThread.spawn (body : GoString) : PostThread :=
  ⟨postRequest body, .start, ⟨[], []⟩, ResponseWriter.fresh⟩

/-- One step of a goroutine on the shared map: from `start`, the decoding of
the body, into `rejected` with the 400 response or into `decoded`; from
`decoded`, the critical section; from `stored`, the 201 response. -/
def PostThread.step (dec : Decoder) (items : Store) (t : PostThread) : Store × PostThread :=
  match t.pc with
  | .start =>
    match dec t.r.Body with
    | .error err => (items, { t with pc := .rejected, w := httpError t.w err StatusBadRequest })
    | .ok newItem => (items, { t with pc := .decoded, newItem := newItem })
  | .decoded => (items.insert t.newItem.ID t.newItem, { t with pc := .stored })
  | .stored =>
    (items, { t with pc := .returned,
                     w := encode (t.w.WriteHeader StatusCreated) (marshalItem t.newItem) })
  | .rejected => (items, t)
  | .returned => (items, t)

/-- Whether the goroutine has returned from the handler. -/
def PostThread.finished (t : PostThread) : Bool :=
  t.pc = .rejected || t.pc = .returned

/-- The shared map and the goroutines serving POSTs on it. -/
structure Pool where
  items : Store
  threads : List PostThread

/-- One goroutine per body, on the empty store. -/
def Pool.spawn (bodies : List GoString) : Pool :=
  ⟨emptyStore, bodies.map PostThread.spawn⟩

/-- The scheduler lets goroutine number `i` take its next step. -/
def Pool.step (dec : Decoder) (p : Pool) (i : Nat) : Pool :=
  match p.threads.get? i with
  | none => p
  | some t =>
    let next := t.step dec p.items
    ⟨next.1, p.threads.set i next.2⟩

/-- An execution: the scheduler picks goroutines one step at a time. -/
def Pool.run (dec : Decoder) (p : Pool) (schedule : List Nat) : Pool :=
  schedule.foldl (Pool.step dec) p

/-- Whether every goroutine has returned. -/
def Pool.finished (p : Pool) : Bool :=
  p.threads.all PostThread.finished

/-! ## Predicates used in the statements and proofs -/

/-- Every entry of the store is stored under the id of its item. -/
def KeyedByID (s : Store) : Prop :=
  ∀ (k : GoString) (v : Item), s.lookup k = some v → v.ID = k

/-- The store after inserting each item of a list under its id, in order. -/
def insertAll (s : Store) (l : List Item) : Store :=
  l.foldl (fun acc item => acc.insert item.ID item) s

/-- The item a body decodes to; the zero item when it does not decode. -/
def itemOf (dec : Decoder) (b : GoString) : Item :=
  match dec b with
  | .ok item => item
  | .error _ => ⟨[], []⟩

/-- What holds of the locals of a goroutine at each program point. -/
def PostThread.Local (dec : Decoder) (t : PostThread) : Prop :=
  match t.pc with
  | .start => t.w = ResponseWriter.fresh
  | .decoded => dec t.r.Body = .ok t.newItem ∧ t.w = ResponseWriter.fresh
  | .stored => dec t.r.Body = .ok t.newItem ∧ t.w = ResponseWriter.fresh
  | .rejected =>
    ∃ err, dec t.r.Body = .error err ∧
      t.w = httpError ResponseWriter.fresh err StatusBadRequest
  | .returned => dec t.r.Body = .ok t.newItem ∧ t.w = created t.newItem

/-- The body of a goroutine that is done with the shared map: past its
critical section, or rejected before it. -/
def PostThread.settled (t : PostThread) : Option GoString :=
  match t.pc with
  | .start => none
  | .decoded => none
  | .stored => some t.r.Body
  | .rejected => some t.r.Body
  | .returned => some t.r.Body

/-- What every execution preserves: the goroutines still serve the given
bodies, their locals fit their program points, and the shared map is what
serving the settled bodies one after the other, in some order, gives. -/
structure Pool.Inv (dec : Decoder) (ro : RangeOrder) (bodies : List GoString)
    (p : Pool) : Prop where
  served : p.threads.map (fun t => t.r.Body) = bodies
  locals : ∀ t ∈ p.threads, t.Local dec
  settled : ∃ order : List GoString,
    order.Perm (p.threads.filterMap PostThread.settled) ∧
    p.items = (postEach dec ro emptyStore order).1

/-! ## Lemmas on the library models -/

theorem sliceFrom_append_left (p s : GoString) : sliceFrom (p ++ s) p.length = some s := by
  simp [sliceFrom]

theorem pathID_root_append (m id b : GoString) :
    pathID ⟨m, itemsRoot ++ id, b⟩ = some id :=
  sliceFrom_append_left itemsRoot id

theorem Slice.toList_append {α : Type} (s : Slice α) (x : α) :
    (s.append x).toList = s.toList ++ [x] := rfl

theorem RangeOrder.visit_empty (ro : RangeOrder) : ro.visit emptyStore = [] := by
  have h := ro.complete emptyStore
  exact (Multiset.coe_eq_zero _).mp (h.trans rfl)

theorem foldl_append_toList (l : List Entry) (acc : Slice Item) :
    (l.foldl (fun itemList e => itemList.append e.2) acc).toList
      = acc.toList ++ l.map Sigma.snd := by
  induction l generalizing acc with
  | nil => simp
  | cons e l ih =>
    rw [List.foldl_cons, ih, Slice.toList_append, List.map_cons, List.append_assoc]
    rfl

theorem collect_toList (l : List Entry) : (collect l).toList = l.map Sigma.snd := by
  rw [collect, foldl_append_toList]
  rfl

theorem method_ne :
    MethodPost ≠ MethodGet ∧ MethodPut ≠ MethodGet ∧ MethodDelete ≠ MethodGet ∧
    MethodDelete ≠ MethodPut := by decide

/-! ## The collection endpoint on the empty store -/

theorem foldl_append_mk (l : List Entry) (acc : List Item) :
    l.foldl (fun itemList e => itemList.append e.2) (Slice.mk acc)
      = Slice.mk (acc ++ l.map Sigma.snd) := by
  induction l generalizing acc with
  | nil => simp
  | cons e rest ih =>
    rw [List.foldl_cons, Slice.append, Slice.toList, ih, List.map_cons, List.append_assoc]
    rfl

theorem collect_cons (e : Entry) (l : List Entry) :
    collect (e :: l) = Slice.mk (e.2 :: l.map Sigma.snd) := by
  rw [collect, List.foldl_cons, Slice.append, Slice.toList, foldl_append_mk]
  rfl

theorem RangeOrder.visit_ne_nil (ro : RangeOrder) (s : Store) (h : s ≠ emptyStore) :
    ro.visit s ≠ [] := by
  intro hv
  apply h
  apply Finmap.ext
  rw [← ro.complete, hv]
  rfl

/-- C1 (as the code behaves): on the empty store a GET on the collection
endpoint leaves the store empty and answers status 200 with the JSON value
`null`, which is not the empty array: the loop never runs, `itemList` stays the
`nil` slice, and the encoder writes a `nil` slice as `null`. On every other
store the same branch answers 200 with a JSON array. -/
theorem get_collection_empty_writes_null :
    (∀ (dec : Decoder) (ro : RangeOrder) (path body : GoString),
      itemsHandler dec ro emptyStore ResponseWriter.fresh ⟨MethodGet, path, body⟩
        = (emptyStore, ⟨some StatusOK, [Chunk.json Json.null]⟩)) ∧
    Json.null ≠ Json.arr [] ∧
    (∀ (dec : Decoder) (ro : RangeOrder) (items : Store) (path body : GoString),
      items ≠ emptyStore → ∃ elems : List Json,
        itemsHandler dec ro items ResponseWriter.fresh ⟨MethodGet, path, body⟩
          = (items, ⟨some StatusOK, [Chunk.json (Json.arr elems)]⟩)) := by
  refine ⟨?_, fun h => Json.noConfusion h, ?_⟩
  · intro dec ro path body
    simp [itemsHandler, ro.visit_empty, collect, marshalItems, encode, ResponseWriter.Write,
      ResponseWriter.WriteHeader, ResponseWriter.fresh, StatusOK]
  · intro dec ro items path body hne
    obtain ⟨e, rest, hv⟩ := List.exists_cons_of_ne_nil (ro.visit_ne_nil items hne)
    refine ⟨(e.2 :: rest.map Sigma.snd).map marshalItem, ?_⟩
    simp [itemsHandler, hv, collect_cons, marshalItems, encode, ResponseWriter.Write,
      ResponseWriter.WriteHeader, ResponseWriter.fresh, StatusOK]

/-! ## POST then GET -/

/-- C2: when the body of a POST decodes to `item`, the collection endpoint
answers 201 with that item and stores it under `item.ID`, whatever the store
held before; the GET on `/items/` followed by `item.ID` that comes next answers
200 with the same item and leaves the store as the POST made it. -/
theorem post_then_get (dec : Decoder) (ro : RangeOrder) (items : Store)
    (path body body2 : GoString) (item : Item) (h : dec body = .ok item) :
    let posted := itemsHandler dec ro items ResponseWriter.fresh ⟨MethodPost, path, body⟩
    posted.2 = ⟨some StatusCreated, [Chunk.json (marshalItem item)]⟩ ∧
    posted.1.lookup item.ID = some item ∧
    itemHandler dec posted.1 ResponseWriter.fresh ⟨MethodGet, itemsRoot ++ item.ID, body2⟩
      = some (posted.1, ⟨some StatusOK, [Chunk.json (marshalItem item)]⟩) := by
  have hp : itemsHandler dec ro items ResponseWriter.fresh ⟨MethodPost, path, body⟩
      = (items.insert item.ID item, ⟨some StatusCreated, [Chunk.json (marshalItem item)]⟩) := by
    simp [itemsHandler, method_ne.1, h, encode, ResponseWriter.Write,
      ResponseWriter.WriteHeader, ResponseWriter.fresh]
  simp only [hp]
  refine ⟨trivial, Finmap.lookup_insert _, ?_⟩
  simp [itemHandler, pathID_root_append, Finmap.lookup_insert, encode, ResponseWriter.Write,
    ResponseWriter.WriteHeader, ResponseWriter.fresh, StatusOK]

/-- Witness of C2 on a store that already holds an entry under the id. -/
theorem post_then_get_witness :
    sampleDecoder [1, 2] = .ok ⟨[1], [2]⟩ ∧
    (let posted := itemsHandler sampleDecoder sortedOrder (emptyStore.insert [1] ⟨[1], [9]⟩)
        ResponseWriter.fresh ⟨MethodPost, lit "/items", [1, 2]⟩
     posted.2 = ⟨some StatusCreated, [Chunk.json (marshalItem ⟨[1], [2]⟩)]⟩ ∧
     posted.1.lookup [1] = some ⟨[1], [2]⟩ ∧
     itemHandler sampleDecoder posted.1 ResponseWriter.fresh ⟨MethodGet, itemsRoot ++ [1], []⟩
      = some (posted.1, ⟨some StatusOK, [Chunk.json (marshalItem ⟨[1], [2]⟩)]⟩)) :=
  ⟨rfl, post_then_get sampleDecoder sortedOrder (emptyStore.insert [1] ⟨[1], [9]⟩)
    (lit "/items") [1, 2] [] ⟨[1], [2]⟩ rfl⟩

/-! ## PUT -/

/-- C3: when the body of a PUT on `/items/` followed by `id` decodes to `sent`,
the answer is 200 with the item of id `id` and name `sent.Name`, which is then
stored under `id` whether or not `id` was present; the GET on the same path
that comes next answers 200 with that item; and a PUT whose body decodes to an
item of the same name, with any id, gives the same store and the same answer. -/
theorem put_then_get (dec : Decoder) (items : Store) (id body body2 : GoString)
    (sent : Item) (h : dec body = .ok sent) :
    let put := itemHandler dec items ResponseWriter.fresh ⟨MethodPut, itemsRoot ++ id, body⟩
    let stored : Item := ⟨id, sent.Name⟩
    put = some (items.insert id stored, ⟨some StatusOK, [Chunk.json (marshalItem stored)]⟩) ∧
    itemHandler dec (items.insert id stored) ResponseWriter.fresh
        ⟨MethodGet, itemsRoot ++ id, body2⟩
      = some (items.insert id stored, ⟨some StatusOK, [Chunk.json (marshalItem stored)]⟩) ∧
    ∀ (other : GoString) (sent2 : Item), dec other = .ok sent2 → sent2.Name = sent.Name →
      itemHandler dec items ResponseWriter.fresh ⟨MethodPut, itemsRoot ++ id, other⟩ = put := by
  have hput : ∀ (b : GoString) (it : Item), dec b = .ok it →
      itemHandler dec items ResponseWriter.fresh ⟨MethodPut, itemsRoot ++ id, b⟩
        = some (items.insert id ⟨id, it.Name⟩,
            ⟨some StatusOK, [Chunk.json (marshalItem ⟨id, it.Name⟩)]⟩) := by
    intro b it hb
    simp [itemHandler, pathID_root_append, method_ne.2.1, hb, encode, ResponseWriter.Write,
      ResponseWriter.WriteHeader, ResponseWriter.fresh, StatusOK]
  refine ⟨hput body sent h, ?_, ?_⟩
  · simp [itemHandler, pathID_root_append, Finmap.lookup_insert, encode, ResponseWriter.Write,
      ResponseWriter.WriteHeader, ResponseWriter.fresh, StatusOK]
  · intro other sent2 h2 hn
    rw [hput other sent2 h2, hput body sent h, hn]

/-- Witness of C3: a PUT on an id the store does not hold, with a body whose
own id differs from the path id. -/
theorem put_then_get_witness :
    sampleDecoder [7, 2] = .ok ⟨[7], [2]⟩ ∧
    (let put := itemHandler sampleDecoder emptyStore ResponseWriter.fresh
        ⟨MethodPut, itemsRoot ++ [1], [7, 2]⟩
     let stored : Item := ⟨[1], [2]⟩
     put = some (emptyStore.insert [1] stored,
        ⟨some StatusOK, [Chunk.json (marshalItem stored)]⟩) ∧
     itemHandler sampleDecoder (emptyStore.insert [1] stored) ResponseWriter.fresh
        ⟨MethodGet, itemsRoot ++ [1], []⟩
      = some (emptyStore.insert [1] stored,
          ⟨some StatusOK, [Chunk.json (marshalItem stored)]⟩) ∧
     ∀ (other : GoString) (sent2 : Item), sampleDecoder other = .ok sent2 →
      sent2.Name = [2] →
      itemHandler sampleDecoder emptyStore ResponseWriter.fresh
        ⟨MethodPut, itemsRoot ++ [1], other⟩ = put) :=
  ⟨rfl, put_then_get sampleDecoder emptyStore [1] [7, 2] [] ⟨[7], [2]⟩ rfl⟩

/-! ## DELETE -/

/-- C4: a DELETE on an id the store holds answers 204 with an empty body and
removes the entry; the GET on the same id that comes next answers 404; every
other id is looked up after the DELETE to what it was before. -/
theorem delete_then_get (dec : Decoder) (items : Store) (id body body2 : GoString)
    (h : id ∈ items) :
    itemHandler dec items ResponseWriter.fresh ⟨MethodDelete, itemsRoot ++ id, body⟩
      = some (items.erase id, ⟨some StatusNoContent, []⟩) ∧
    itemHandler dec (items.erase id) ResponseWriter.fresh ⟨MethodGet, itemsRoot ++ id, body2⟩
      = some (items.erase id, ⟨some StatusNotFound, [Chunk.text (lit "Item not found")]⟩) ∧
    ∀ k : GoString, k ≠ id → (items.erase id).lookup k = items.lookup k := by
  obtain ⟨item, hitem⟩ := Finmap.mem_iff.mp h
  refine ⟨?_, ?_, fun k hk => Finmap.lookup_erase_ne hk⟩
  · simp [itemHandler, pathID_root_append, method_ne.2.2.1, method_ne.2.2.2, hitem,
      ResponseWriter.WriteHeader, ResponseWriter.fresh]
  · simp [itemHandler, pathID_root_append, Finmap.lookup_erase, httpError,
      ResponseWriter.Write, ResponseWriter.WriteHeader, ResponseWriter.fresh]

/-- Witness of C4 on a store of two entries. -/
theorem delete_then_get_witness :
    ([1] : GoString) ∈ (emptyStore.insert [1] ⟨[1], [5]⟩).insert [2] ⟨[2], [6]⟩ ∧
    (itemHandler sampleDecoder ((emptyStore.insert [1] ⟨[1], [5]⟩).insert [2] ⟨[2], [6]⟩)
        ResponseWriter.fresh ⟨MethodDelete, itemsRoot ++ [1], []⟩
      = some (((emptyStore.insert [1] ⟨[1], [5]⟩).insert [2] ⟨[2], [6]⟩).erase [1],
          ⟨some StatusNoContent, []⟩) ∧
     itemHandler sampleDecoder
        (((emptyStore.insert [1] ⟨[1], [5]⟩).insert [2] ⟨[2], [6]⟩).erase [1])
        ResponseWriter.fresh ⟨MethodGet, itemsRoot ++ [1], []⟩
      = some (((emptyStore.insert [1] ⟨[1], [5]⟩).insert [2] ⟨[2], [6]⟩).erase [1],
          ⟨some StatusNotFound, [Chunk.text (lit "Item not found")]⟩) ∧
     ∀ k : GoString, k ≠ [1] →
      (((emptyStore.insert [1] ⟨[1], [5]⟩).insert [2] ⟨[2], [6]⟩).erase [1]).lookup k
        = ((emptyStore.insert [1] ⟨[1], [5]⟩).insert [2] ⟨[2], [6]⟩).lookup k) :=
  ⟨by decide, delete_then_get sampleDecoder _ [1] [] [] (by decide)⟩

/-! ## Bodies that do not decode -/

/-- C5: when the body does not decode, a POST on the collection endpoint and a
PUT on any `/items/` path both answer 400 with the text of the decoding error
and return the store they were given. -/
theorem undecodable_body_rejected (dec : Decoder) (ro : RangeOrder) (items : Store)
    (path id body err : GoString) (h : dec body = .error err) :
    itemsHandler dec ro items ResponseWriter.fresh ⟨MethodPost, path, body⟩
      = (items, ⟨some StatusBadRequest, [Chunk.text err]⟩) ∧
    itemHandler dec items ResponseWriter.fresh ⟨MethodPut, itemsRoot ++ id, body⟩
      = some (items, ⟨some StatusBadRequest, [Chunk.text err]⟩) := by
  constructor
  · simp [itemsHandler, method_ne.1, h, httpError, ResponseWriter.Write,
      ResponseWriter.WriteHeader, ResponseWriter.fresh]
  · simp [itemHandler, pathID_root_append, method_ne.2.1, h, httpError,
      ResponseWriter.Write, ResponseWriter.WriteHeader, ResponseWriter.fresh]

/-- Witness of C5: a one-byte body on a store of one entry. -/
theorem undecodable_body_rejected_witness :
    sampleDecoder [0] = .error (lit "invalid character") ∧
    (itemsHandler sampleDecoder sortedOrder (emptyStore.insert [1] ⟨[1], [5]⟩)
        ResponseWriter.fresh ⟨MethodPost, lit "/items", [0]⟩
      = (emptyStore.insert [1] ⟨[1], [5]⟩,
          ⟨some StatusBadRequest, [Chunk.text (lit "invalid character")]⟩) ∧
     itemHandler sampleDecoder (emptyStore.insert [1] ⟨[1], [5]⟩) ResponseWriter.fresh
        ⟨MethodPut, itemsRoot ++ [1], [0]⟩
      = some (emptyStore.insert [1] ⟨[1], [5]⟩,
          ⟨some StatusBadRequest, [Chunk.text (lit "invalid character")]⟩)) :=
  ⟨rfl, undecodable_body_rejected sampleDecoder sortedOrder _ (lit "/items") [1] [0] _ rfl⟩

/-! ## NotFound -/

/-- C6: on `/items/` followed by `id`, a GET and a DELETE each answer 404
exactly when the store has no entry under `id`; a GET always returns the store
it was given and, when `id` is present, answers 200 with the entry stored
under `id`; a DELETE that answers 404 returns the store it was given. -/
theorem not_found_iff_absent (dec : Decoder) (items : Store) (id body : GoString) :
    (∃ w : ResponseWriter,
      itemHandler dec items ResponseWriter.fresh ⟨MethodGet, itemsRoot ++ id, body⟩
        = some (items, w) ∧
      (w.code = StatusNotFound ↔ id ∉ items) ∧
      (∀ item : Item, items.lookup id = some item →
        w = ⟨some StatusOK, [Chunk.json (marshalItem item)]⟩)) ∧
    (∃ (after : Store) (w : ResponseWriter),
      itemHandler dec items ResponseWriter.fresh ⟨MethodDelete, itemsRoot ++ id, body⟩
        = some (after, w) ∧
      (w.code = StatusNotFound ↔ id ∉ items) ∧
      (w.code = StatusNotFound → after = items)) := by
  rw [← Finmap.lookup_eq_none]
  cases hl : items.lookup id with
  | none =>
    constructor
    · refine ⟨⟨some StatusNotFound, [Chunk.text (lit "Item not found")]⟩, ?_, ?_, ?_⟩
      · simp [itemHandler, pathID_root_append, hl, httpError, ResponseWriter.Write,
          ResponseWriter.WriteHeader, ResponseWriter.fresh]
      · simp [ResponseWriter.code]
      · intro item hi
        cases hi
    · refine ⟨items, ⟨some StatusNotFound, [Chunk.text (lit "Item not found")]⟩, ?_, ?_, ?_⟩
      · simp [itemHandler, pathID_root_append, method_ne.2.2.1, method_ne.2.2.2, hl,
          httpError, ResponseWriter.Write, ResponseWriter.WriteHeader, ResponseWriter.fresh]
      · simp [ResponseWriter.code]
      · intro _
        rfl
  | some item =>
    constructor
    · refine ⟨⟨some StatusOK, [Chunk.json (marshalItem item)]⟩, ?_, ?_, ?_⟩
      · simp [itemHandler, pathID_root_append, hl, encode, ResponseWriter.Write,
          ResponseWriter.WriteHeader, ResponseWriter.fresh, StatusOK]
      · simp [ResponseWriter.code, StatusOK, StatusNotFound]
      · intro item2 hi
        cases hi
        rfl
    · refine ⟨items.erase id, ⟨some StatusNoContent, []⟩, ?_, ?_, ?_⟩
      · simp [itemHandler, pathID_root_append, method_ne.2.2.1, method_ne.2.2.2, hl,
          ResponseWriter.WriteHeader, ResponseWriter.fresh]
      · simp [ResponseWriter.code, StatusNoContent, StatusNotFound]
      · simp [ResponseWriter.code, StatusNoContent, StatusNotFound]

/-! ## Listing the collection -/

theorem entries_card_eq_keys_card (s : Store) : Multiset.card s.entries = s.keys.card := by
  simp [Finmap.keys, Multiset.keys, Finset.card]

theorem collect_visit (ro : RangeOrder) (s : Store) :
    ((collect (ro.visit s)).toList : Multiset Item) = s.entries.map Sigma.snd := by
  rw [collect_toList, ← Multiset.map_coe, ro.complete]

theorem itemsHandler_get (dec : Decoder) (ro : RangeOrder) (items : Store)
    (path body : GoString) :
    itemsHandler dec ro items ResponseWriter.fresh ⟨MethodGet, path, body⟩
      = (items, ⟨some StatusOK, [Chunk.json (marshalItems (collect (ro.visit items)))]⟩) := by
  simp [itemsHandler, encode, ResponseWriter.Write, ResponseWriter.WriteHeader,
    ResponseWriter.fresh, StatusOK]

/-- C7: a GET on the collection endpoint returns the store it was given and
answers 200 with the encoding of a slice whose elements are, as a multiset,
the items of the entries of the store: each entry contributes its item once
and nothing else occurs, so the length is the number of keys and an item
occurs exactly when some key holds it. -/
theorem get_collection_lists_store (dec : Decoder) (ro : RangeOrder) (items : Store)
    (path body : GoString) :
    ∃ itemList : Slice Item,
      itemsHandler dec ro items ResponseWriter.fresh ⟨MethodGet, path, body⟩
        = (items, ⟨some StatusOK, [Chunk.json (marshalItems itemList)]⟩) ∧
      (itemList.toList : Multiset Item) = items.entries.map Sigma.snd ∧
      itemList.toList.length = items.keys.card ∧
      ∀ v : Item, v ∈ itemList.toList ↔ ∃ k : GoString, items.lookup k = some v := by
  refine ⟨collect (ro.visit items), itemsHandler_get dec ro items path body,
    collect_visit ro items, ?_, ?_⟩
  · have h := congrArg Multiset.card (collect_visit ro items)
    rw [Multiset.coe_card, Multiset.card_map, entries_card_eq_keys_card] at h
    exact h
  · intro v
    rw [← Multiset.mem_coe, collect_visit, Multiset.mem_map]
    constructor
    · rintro ⟨⟨k, v2⟩, he, rfl⟩
      exact ⟨k, Finmap.mem_lookup_iff.mpr he⟩
    · rintro ⟨k, hk⟩
      exact ⟨⟨k, v⟩, Finmap.mem_lookup_iff.mp hk, rfl⟩

/-! ## Extracting the id from the path -/

/-- C9: on a path that begins with `/items/` the slice expression of
`itemHandler` does not panic, for any method and body, and the id it yields is
the rest of the path: `/items/` followed by the id is the path. On the path
`/items/` itself the id is empty. -/
theorem path_id_is_remainder (m path body : GoString) (h : itemsRoot <+: path) :
    (∃ id : GoString, pathID ⟨m, path, body⟩ = some id ∧ itemsRoot ++ id = path) ∧
    (∀ (dec : Decoder) (items : Store) (w : ResponseWriter),
      (itemHandler dec items w ⟨m, path, body⟩).isSome = true) ∧
    pathID ⟨m, itemsRoot, body⟩ = some [] := by
  obtain ⟨id, rfl⟩ := h
  refine ⟨⟨id, pathID_root_append m id body, rfl⟩, ?_, ?_⟩
  · intro dec items w
    simp only [itemHandler, pathID_root_append]
    split_ifs <;> first | rfl | (split <;> rfl)
  · simpa using pathID_root_append m [] body

/-- Witness of C9 on the path `/items/a`. -/
theorem path_id_is_remainder_witness :
    itemsRoot <+: lit "/items/a" ∧
    ((∃ id : GoString, pathID ⟨MethodGet, lit "/items/a", []⟩ = some id ∧
        itemsRoot ++ id = lit "/items/a") ∧
     (∀ (dec : Decoder) (items : Store) (w : ResponseWriter),
      (itemHandler dec items w ⟨MethodGet, lit "/items/a", []⟩).isSome = true) ∧
     pathID ⟨MethodGet, itemsRoot, []⟩ = some []) :=
  ⟨by decide, path_id_is_remainder MethodGet (lit "/items/a") [] (by decide)⟩

/-! ## Entries are keyed by their id -/

theorem keyedByID_insert (s : Store) (v : Item) (h : KeyedByID s) :
    KeyedByID (s.insert v.ID v) := by
  intro k w hk
  by_cases hkv : k = v.ID
  · subst hkv
    rw [Finmap.lookup_insert] at hk
    cases hk
    rfl
  · rw [Finmap.lookup_insert_of_ne _ hkv] at hk
    exact h k w hk

theorem keyedByID_erase (s : Store) (id : GoString) (h : KeyedByID s) :
    KeyedByID (s.erase id) := by
  intro k w hk
  by_cases hkv : k = id
  · subst hkv
    rw [Finmap.lookup_erase] at hk
    cases hk
  · rw [Finmap.lookup_erase_ne hkv] at hk
    exact h k w hk

theorem keyedByID_itemsHandler (dec : Decoder) (ro : RangeOrder) (s : Store)
    (w : ResponseWriter) (r : Request) (h : KeyedByID s) :
    KeyedByID (itemsHandler dec ro s w r).1 := by
  unfold itemsHandler
  split_ifs
  · exact h
  · split
    · exact h
    · exact keyedByID_insert s _ h
  · exact h

theorem keyedByID_itemHandler (dec : Decoder) (s after : Store) (w w2 : ResponseWriter)
    (r : Request) (h : KeyedByID s) (hr : itemHandler dec s w r = some (after, w2)) :
    KeyedByID after := by
  unfold itemHandler at hr
  split at hr
  · cases hr
  · rename_i id _
    dsimp only at hr
    split_ifs at hr
    · split at hr <;> cases hr <;> exact h
    · split at hr
      · cases hr
        exact h
      · cases hr
        exact keyedByID_insert s ⟨id, _⟩ h
    · split at hr
      · cases hr
        exact h
      · cases hr
        exact keyedByID_erase s id h
    · cases hr
      exact h

theorem keyedByID_serve (dec : Decoder) (s : Store) (c : Call) (h : KeyedByID s) :
    KeyedByID (serve dec s c) := by
  cases c with
  | items ro r => exact keyedByID_itemsHandler dec ro s _ r h
  | item r =>
    simp only [serve]
    split
    · exact h
    · rename_i after w2 hr
      exact keyedByID_itemHandler dec s after _ w2 r h hr

theorem keyedByID_serveAll (dec : Decoder) (calls : List Call) (s : Store)
    (h : KeyedByID s) : KeyedByID (serveAll dec s calls) := by
  induction calls generalizing s with
  | nil => exact h
  | cons c rest ih => exact ih (serve dec s c) (keyedByID_serve dec s c h)

theorem visit_keys_nodup (ro : RangeOrder) (s : Store) :
    ((ro.visit s).map Sigma.fst).Nodup := by
  have h : (ro.visit s).NodupKeys := by
    rw [← Multiset.coe_nodupKeys, ro.complete]
    exact s.nodupKeys
  exact h

theorem visit_lookup (ro : RangeOrder) (s : Store) (e : Entry) (h : e ∈ ro.visit s) :
    s.lookup e.1 = some e.2 := by
  apply Finmap.mem_lookup_iff.mpr
  rw [← ro.complete]
  exact h

/-- C10: in the store reached from the empty store by any sequence of calls
of the two handlers, with any methods, paths and bodies, every entry is stored
under the id of its item; and the slice a GET on the collection endpoint then
encodes holds no two items of the same id. -/
theorem reachable_store_keyed_by_id (dec : Decoder) (calls : List Call) :
    (∀ (k : GoString) (v : Item),
      (serveAll dec emptyStore calls).lookup k = some v → v.ID = k) ∧
    ∀ (ro : RangeOrder) (path body : GoString), ∃ itemList : Slice Item,
      itemsHandler dec ro (serveAll dec emptyStore calls) ResponseWriter.fresh
          ⟨MethodGet, path, body⟩
        = (serveAll dec emptyStore calls,
            ⟨some StatusOK, [Chunk.json (marshalItems itemList)]⟩) ∧
      (itemList.toList.map Item.ID).Nodup := by
  have hk : KeyedByID (serveAll dec emptyStore calls) :=
    keyedByID_serveAll dec calls emptyStore (fun k v h => by
      rw [emptyStore, Finmap.lookup_empty] at h
      cases h)
  refine ⟨hk, ?_⟩
  intro ro path body
  refine ⟨collect (ro.visit (serveAll dec emptyStore calls)),
    itemsHandler_get dec ro _ path body, ?_⟩
  · rw [collect_toList, List.map_map]
    have hm : (ro.visit (serveAll dec emptyStore calls)).map (Item.ID ∘ Sigma.snd)
        = (ro.visit (serveAll dec emptyStore calls)).map Sigma.fst :=
      List.map_congr_left (fun e he => hk e.1 e.2 (visit_lookup ro _ e he))
    rw [hm]
    exact visit_keys_nodup ro _

/-! ## POSTs served one after the other -/

theorem itemsHandler_post_ok (dec : Decoder) (ro : RangeOrder) (s : Store) (b : GoString)
    (item : Item) (h : dec b = .ok item) :
    itemsHandler dec ro s ResponseWriter.fresh (postRequest b)
      = (s.insert item.ID item, created item) := by
  simp [itemsHandler, postRequest, created, method_ne.1, h, encode, ResponseWriter.Write,
    ResponseWriter.WriteHeader, ResponseWriter.fresh]

theorem itemsHandler_post_error (dec : Decoder) (ro : RangeOrder) (s : Store)
    (b err : GoString) (h : dec b = .error err) :
    itemsHandler dec ro s ResponseWriter.fresh (postRequest b)
      = (s, httpError ResponseWriter.fresh err StatusBadRequest) := by
  simp [itemsHandler, postRequest, method_ne.1, h]

theorem postEach_ok (dec : Decoder) (ro : RangeOrder) (reqs : List (GoString × Item))
    (hdec : ∀ q ∈ reqs, dec q.1 = .ok q.2) (s : Store) :
    postEach dec ro s (reqs.map Prod.fst)
      = (insertAll s (reqs.map Prod.snd), reqs.map (fun q => created q.2)) := by
  induction reqs generalizing s with
  | nil => rfl
  | cons q rest ih =>
    have hq := hdec q (List.mem_cons_self _ _)
    have hrest : ∀ q2 ∈ rest, dec q2.1 = .ok q2.2 :=
      fun q2 h2 => hdec q2 (List.mem_cons_of_mem _ h2)
    simp only [List.map_cons, postEach, itemsHandler_post_ok dec ro s q.1 q.2 hq, ih hrest]
    rfl

theorem postEach_append (dec : Decoder) (ro : RangeOrder) (s : Store) (a b : List GoString) :
    (postEach dec ro s (a ++ b)).1 = (postEach dec ro (postEach dec ro s a).1 b).1 := by
  induction a generalizing s with
  | nil => rfl
  | cons x rest ih =>
    simp only [List.cons_append, postEach]
    exact ih _

theorem lookup_insertAll_of_not_mem (l : List Item) (s : Store) (k : GoString)
    (h : k ∉ l.map Item.ID) : (insertAll s l).lookup k = s.lookup k := by
  induction l generalizing s with
  | nil => rfl
  | cons a rest ih =>
    simp only [List.map_cons, List.mem_cons, not_or] at h
    rw [insertAll, List.foldl_cons, ← insertAll, ih _ h.2, Finmap.lookup_insert_of_ne _ h.1]

theorem lookup_insertAll_of_mem (l : List Item) (s : Store) (v : Item)
    (hnd : (l.map Item.ID).Nodup) (h : v ∈ l) : (insertAll s l).lookup v.ID = some v := by
  induction l generalizing s with
  | nil => cases h
  | cons a rest ih =>
    simp only [List.map_cons, List.nodup_cons] at hnd
    rw [insertAll, List.foldl_cons, ← insertAll]
    rcases List.mem_cons.mp h with rfl | hv
    · rw [lookup_insertAll_of_not_mem rest _ _ hnd.1, Finmap.lookup_insert]
    · exact ih _ hnd.2 hv

theorem insertAll_perm (l1 l2 : List Item) (s : Store) (hnd : (l1.map Item.ID).Nodup)
    (hp : l1.Perm l2) : insertAll s l1 = insertAll s l2 := by
  apply Finmap.ext_lookup
  intro k
  have hnd2 : (l2.map Item.ID).Nodup := (hp.map Item.ID).nodup_iff.mp hnd
  by_cases hk : k ∈ l1.map Item.ID
  · obtain ⟨v, hv, rfl⟩ := List.mem_map.mp hk
    rw [lookup_insertAll_of_mem l1 s v hnd hv,
      lookup_insertAll_of_mem l2 s v hnd2 (hp.subset hv)]
  · have hk2 : k ∉ l2.map Item.ID := fun h => hk ((hp.map Item.ID).symm.subset h)
    rw [lookup_insertAll_of_not_mem l1 s k hk, lookup_insertAll_of_not_mem l2 s k hk2]

theorem insertAll_entries (l : List Item) (hnd : (l.map Item.ID).Nodup) :
    (insertAll emptyStore l).entries.map Sigma.snd = (l : Multiset Item) := by
  have he : (insertAll emptyStore l).entries
      = ((l.map (fun v => (⟨v.ID, v⟩ : Entry)) : List Entry) : Multiset Entry) := by
    refine (Multiset.Nodup.ext (Finmap.nodup_entries _) ?_).mpr ?_
    · rw [Multiset.coe_nodup]
      refine (List.nodup_map_iff_inj_on (hnd.of_map _)).mpr ?_
      intro x _ y _ hxy
      simpa using congrArg Sigma.snd hxy
    · rintro ⟨k, v⟩
      rw [← Finmap.mem_lookup_iff, Multiset.mem_coe, List.mem_map]
      constructor
      · intro hl
        by_cases hk : k ∈ l.map Item.ID
        · obtain ⟨u, hu, rfl⟩ := List.mem_map.mp hk
          rw [lookup_insertAll_of_mem l _ u hnd hu] at hl
          exact ⟨u, hu, by rw [Option.some.inj hl]⟩
        · rw [lookup_insertAll_of_not_mem l _ k hk, emptyStore, Finmap.lookup_empty] at hl
          cases hl
      · rintro ⟨u, hu, he⟩
        have h1 : u.ID = k := congrArg Sigma.fst he
        have h2 : u = v := by simpa using congrArg Sigma.snd he
        rw [← h1, ← h2]
        exact lookup_insertAll_of_mem l _ u hnd hu
  rw [he, Multiset.map_coe, List.map_map]
  simp [Function.comp_def]

/-! ## Every execution of concurrent POSTs is a sequential one -/

theorem PostThread.step_spec (dec : Decoder) (ro : RangeOrder) (s : Store) (t : PostThread)
    (h : t.Local dec) :
    (t.step dec s).2.r = t.r ∧ (t.step dec s).2.Local dec ∧
    (((t.step dec s).2.settled = t.settled ∧ (t.step dec s).1 = s) ∨
      (t.settled = none ∧ (t.step dec s).2.settled = some t.r.Body ∧
        (t.step dec s).1
          = (itemsHandler dec ro s ResponseWriter.fresh (postRequest t.r.Body)).1)) := by
  obtain ⟨r, pc, newItem, w⟩ := t
  cases pc
  · simp only [PostThread.Local] at h
    subst h
    cases hd : dec r.Body with
    | error err =>
      refine ⟨by simp [PostThread.step, hd], ?_, Or.inr ?_⟩
      · simp [PostThread.step, hd, PostThread.Local]
      · simp [PostThread.step, hd, PostThread.settled, itemsHandler_post_error dec ro s _ _ hd]
    | ok item =>
      refine ⟨by simp [PostThread.step, hd], ?_, Or.inl ?_⟩
      · simp [PostThread.step, hd, PostThread.Local]
      · simp [PostThread.step, hd, PostThread.settled]
  · simp only [PostThread.Local] at h
    refine ⟨rfl, ?_, Or.inr ?_⟩
    · simpa [PostThread.step, PostThread.Local] using h
    · simp [PostThread.step, PostThread.settled, itemsHandler_post_ok dec ro s _ _ h.1]
  · simp only [PostThread.Local] at h
    refine ⟨rfl, ?_, Or.inl ⟨rfl, rfl⟩⟩
    simp only [PostThread.step, PostThread.Local, h.2]
    exact ⟨h.1, rfl⟩
  · exact ⟨rfl, h, Or.inl ⟨rfl, rfl⟩⟩
  · exact ⟨rfl, h, Or.inl ⟨rfl, rfl⟩⟩

/-- A goroutine scheduled three times in a row on a store does what the POST
branch of `itemsHandler` does on that store, and has then returned. -/
theorem PostThread.three_steps_eq_handler (dec : Decoder) (ro : RangeOrder) (s : Store)
    (body : GoString) :
    let a := (PostThread.spawn body).step dec s
    let b := a.2.step dec a.1
    let c := b.2.step dec b.1
    (c.1, c.2.w) = itemsHandler dec ro s ResponseWriter.fresh (postRequest body) ∧
    c.2.finished = true := by
  cases hd : dec body with
  | error err =>
    simp [PostThread.spawn, PostThread.step, PostThread.finished, postRequest, hd,
      itemsHandler, method_ne.1]
  | ok item =>
    simp [PostThread.spawn, PostThread.step, PostThread.finished, postRequest, hd,
      itemsHandler, method_ne.1]

theorem set_split {α : Type} (l : List α) (i : Nat) (t t2 : α) (h : l.get? i = some t) :
    ∃ l1 l2, l = l1 ++ t :: l2 ∧ l.set i t2 = l1 ++ t2 :: l2 := by
  induction l generalizing i with
  | nil => cases h
  | cons a rest ih =>
    cases i with
    | zero =>
      simp only [List.get?_cons_zero, Option.some.injEq] at h
      subst h
      exact ⟨[], rest, rfl, rfl⟩
    | succ j =>
      obtain ⟨l1, l2, h1, h2⟩ := ih j (by simpa using h)
      exact ⟨a :: l1, l2, by rw [h1]; rfl, by rw [List.set_cons_succ, h2]; rfl⟩

theorem Pool.inv_spawn (dec : Decoder) (ro : RangeOrder) (bodies : List GoString) :
    Pool.Inv dec ro bodies (Pool.spawn bodies) := by
  refine ⟨?_, ?_, ⟨[], ?_, rfl⟩⟩
  · simp [Pool.spawn, PostThread.spawn, postRequest, Function.comp_def]
  · intro t ht
    simp only [Pool.spawn, List.mem_map] at ht
    obtain ⟨b, _, rfl⟩ := ht
    rfl
  · have : (Pool.spawn bodies).threads.filterMap PostThread.settled = [] := by
      simp only [Pool.spawn, List.filterMap_map]
      exact List.filterMap_eq_nil_iff.mpr (fun b _ => rfl)
    rw [this]

theorem Pool.inv_step (dec : Decoder) (ro : RangeOrder) (bodies : List GoString) (p : Pool)
    (i : Nat) (h : Pool.Inv dec ro bodies p) : Pool.Inv dec ro bodies (p.step dec i) := by
  unfold Pool.step
  cases hg : p.threads.get? i with
  | none => exact h
  | some t =>
    obtain ⟨l1, l2, hl, hs⟩ := set_split p.threads i t (t.step dec p.items).2 hg
    have ht : t.Local dec := h.locals t (by rw [hl]; simp)
    obtain ⟨hr, hloc, hcase⟩ := PostThread.step_spec dec ro p.items t ht
    obtain ⟨order, hperm, hitems⟩ := h.settled
    refine ⟨?_, ?_, ?_⟩
    · have := h.served
      simp only [hs]
      rw [hl] at this
      simpa [hr] using this
    · intro x hx
      simp only [hs, List.mem_append, List.mem_cons] at hx
      rcases hx with hx | rfl | hx
      · exact h.locals x (by rw [hl]; simp [hx])
      · exact hloc
      · exact h.locals x (by rw [hl]; simp [hx])
    · simp only [hs]
      rw [hl] at hperm
      rcases hcase with ⟨hsame, hstore⟩ | ⟨hnone, hsome, hstore⟩
      · refine ⟨order, ?_, by rw [hstore]; exact hitems⟩
        simpa [List.filterMap_append, List.filterMap_cons, hsame] using hperm
      · refine ⟨order ++ [t.r.Body], ?_, ?_⟩
        · simp only [List.filterMap_append, List.filterMap_cons, hnone, hsome] at hperm ⊢
          refine (hperm.append_right [t.r.Body]).trans ?_
          rw [List.append_assoc]
          exact List.Perm.append_left _ (List.perm_append_singleton _ _)
        · rw [hstore, postEach_append, ← hitems]
          rfl

theorem Pool.inv_run (dec : Decoder) (ro : RangeOrder) (bodies : List GoString)
    (schedule : List Nat) (p : Pool) (h : Pool.Inv dec ro bodies p) :
    Pool.Inv dec ro bodies (p.run dec schedule) := by
  induction schedule generalizing p with
  | nil => exact h
  | cons i rest ih => exact ih (p.step dec i) (Pool.inv_step dec ro bodies p i h)

theorem filterMap_eq_map_of_forall {α β : Type} (f : α → Option β) (g : α → β) (l : List α)
    (h : ∀ a ∈ l, f a = some (g a)) : l.filterMap f = l.map g := by
  induction l with
  | nil => rfl
  | cons a rest ih =>
    rw [List.filterMap_cons, h a (List.mem_cons_self _ _), List.map_cons,
      ih (fun x hx => h x (List.mem_cons_of_mem _ hx))]

theorem PostThread.settled_of_finished (t : PostThread) (h : t.finished = true) :
    t.settled = some t.r.Body := by
  obtain ⟨r, pc, newItem, w⟩ := t
  cases pc <;> first | rfl | (simp [PostThread.finished] at h)

theorem PostThread.response_of_finished (dec : Decoder) (ro : RangeOrder) (t : PostThread)
    (hl : t.Local dec) (h : t.finished = true) :
    t.w = (itemsHandler dec ro emptyStore ResponseWriter.fresh (postRequest t.r.Body)).2 := by
  obtain ⟨r, pc, newItem, w⟩ := t
  cases pc
  · simp [PostThread.finished] at h
  · simp [PostThread.finished] at h
  · simp [PostThread.finished] at h
  · obtain ⟨err, hd, hw⟩ := hl
    rw [itemsHandler_post_error dec ro _ _ err hd]
    exact hw
  · obtain ⟨hd, hw⟩ := hl
    rw [itemsHandler_post_ok dec ro _ _ _ hd]
    exact hw

/-- Every finished execution of goroutines serving POSTs leaves the shared map
that serving the same bodies one after the other, in some order, leaves, and
every goroutine has written the response its handler writes when run alone. -/
theorem Pool.run_linearizable (dec : Decoder) (ro : RangeOrder) (bodies : List GoString)
    (schedule : List Nat)
    (hfin : ((Pool.spawn bodies).run dec schedule).finished = true) :
    (∃ order : List GoString, order.Perm bodies ∧
      ((Pool.spawn bodies).run dec schedule).items
        = (postEach dec ro emptyStore order).1) ∧
    ((Pool.spawn bodies).run dec schedule).threads.map (fun t => t.w)
      = bodies.map (fun b =>
          (itemsHandler dec ro emptyStore ResponseWriter.fresh (postRequest b)).2) := by
  have inv := Pool.inv_run dec ro bodies schedule _ (Pool.inv_spawn dec ro bodies)
  have hall : ∀ t ∈ ((Pool.spawn bodies).run dec schedule).threads, t.finished = true := by
    simpa [Pool.finished] using hfin
  constructor
  · obtain ⟨order, hperm, hitems⟩ := inv.settled
    refine ⟨order, ?_, hitems⟩
    rw [filterMap_eq_map_of_forall _ (fun t => t.r.Body) _
      (fun t ht => t.settled_of_finished (hall t ht)), inv.served] at hperm
    exact hperm
  · have hw : ((Pool.spawn bodies).run dec schedule).threads.map (fun t => t.w)
        = ((Pool.spawn bodies).run dec schedule).threads.map (fun t =>
            (itemsHandler dec ro emptyStore ResponseWriter.fresh (postRequest t.r.Body)).2) :=
      List.map_congr_left
        (fun t ht => PostThread.response_of_finished dec ro t (inv.locals t ht) (hall t ht))
    rw [hw]
    conv_rhs => rw [← inv.served]
    rw [List.map_map]
    rfl

/-! ## POSTs of items with distinct ids -/

theorem itemOf_requests (dec : Decoder) (reqs : List (GoString × Item))
    (hdec : ∀ q ∈ reqs, dec q.1 = .ok q.2) :
    (reqs.map Prod.fst).map (itemOf dec) = reqs.map Prod.snd := by
  rw [List.map_map]
  exact List.map_congr_left (fun q hq => by simp [itemOf, hdec q hq])

theorem postEach_store_perm (dec : Decoder) (ro : RangeOrder) (reqs : List (GoString × Item))
    (hdec : ∀ q ∈ reqs, dec q.1 = .ok q.2) (hid : (reqs.map (fun q => q.2.ID)).Nodup)
    (order : List GoString) (hp : order.Perm (reqs.map Prod.fst)) :
    (postEach dec ro emptyStore order).1
      = (postEach dec ro emptyStore (reqs.map Prod.fst)).1 := by
  have hall : ∀ b ∈ order, dec b = .ok (itemOf dec b) := by
    intro b hb
    obtain ⟨q, hq, rfl⟩ := List.mem_map.mp (hp.subset hb)
    simp [itemOf, hdec q hq]
  have h1 := postEach_ok dec ro (order.map (fun b => (b, itemOf dec b)))
    (by simpa using hall) emptyStore
  have h2 := postEach_ok dec ro reqs hdec emptyStore
  simp only [List.map_map, Function.comp_def, List.map_id'] at h1
  rw [h1, h2]
  have hnd : ((reqs.map Prod.snd).map Item.ID).Nodup := by
    rw [List.map_map]
    exact hid
  refine (insertAll_perm _ _ emptyStore hnd ?_).symm
  rw [← itemOf_requests dec reqs hdec]
  exact (hp.map (itemOf dec)).symm

/-- C8: let the bodies of `reqs` decode to items of pairwise distinct ids.
Served one after the other from the empty store, in any order, every POST
answers 201 with its item and the final store is the same for every order.
Served concurrently, one goroutine per POST under any schedule that lets all
of them return, every POST answers 201 with its item and the shared map ends
as that same store. A GET on the collection endpoint then encodes a slice
whose elements are exactly the posted items, each once. -/
theorem posts_with_distinct_ids (dec : Decoder) (ro : RangeOrder)
    (reqs : List (GoString × Item))
    (hdec : ∀ q ∈ reqs, dec q.1 = .ok q.2)
    (hid : (reqs.map (fun q => q.2.ID)).Nodup) :
    let final := (postEach dec ro emptyStore (reqs.map Prod.fst)).1
    (∀ order : List (GoString × Item), order.Perm reqs →
      postEach dec ro emptyStore (order.map Prod.fst)
        = (final, order.map (fun q => created q.2))) ∧
    (∀ schedule : List Nat,
      ((Pool.spawn (reqs.map Prod.fst)).run dec schedule).finished = true →
      ((Pool.spawn (reqs.map Prod.fst)).run dec schedule).items = final ∧
      ((Pool.spawn (reqs.map Prod.fst)).run dec schedule).threads.map (fun t => t.w)
        = reqs.map (fun q => created q.2)) ∧
    (∀ (ro2 : RangeOrder) (path body : GoString), ∃ itemList : Slice Item,
      itemsHandler dec ro2 final ResponseWriter.fresh ⟨MethodGet, path, body⟩
        = (final, ⟨some StatusOK, [Chunk.json (marshalItems itemList)]⟩) ∧
      (itemList.toList : Multiset Item) = ((reqs.map Prod.snd : List Item) : Multiset Item) ∧
      ∀ v : Item, v ∈ itemList.toList ↔ v ∈ reqs.map Prod.snd) := by
  intro final
  have hfinal : final = insertAll emptyStore (reqs.map Prod.snd) := by
    simp only [final, postEach_ok dec ro reqs hdec emptyStore]
  have hnd : ((reqs.map Prod.snd).map Item.ID).Nodup := by
    rw [List.map_map]
    exact hid
  refine ⟨?_, ?_, ?_⟩
  · intro order hp
    have ho : ∀ q ∈ order, dec q.1 = .ok q.2 := fun q hq => hdec q (hp.subset hq)
    rw [postEach_ok dec ro order ho emptyStore, hfinal,
      insertAll_perm _ _ emptyStore hnd (hp.map Prod.snd).symm]
  · intro schedule hfin
    obtain ⟨⟨order, hp, hitems⟩, hw⟩ :=
      Pool.run_linearizable dec ro (reqs.map Prod.fst) schedule hfin
    refine ⟨?_, ?_⟩
    · rw [hitems]
      exact postEach_store_perm dec ro reqs hdec hid order hp
    · rw [hw, List.map_map]
      exact List.map_congr_left (fun q hq => by
        simp [itemsHandler_post_ok dec ro emptyStore q.1 q.2 (hdec q hq)])
  · intro ro2 path body
    have hm2 : ((collect (ro2.visit final)).toList : Multiset Item)
        = ((reqs.map Prod.snd : List Item) : Multiset Item) := by
      rw [collect_visit, hfinal]
      exact insertAll_entries _ hnd
    refine ⟨collect (ro2.visit final), itemsHandler_get dec ro2 final path body, hm2, ?_⟩
    intro v
    rw [← Multiset.mem_coe, hm2, Multiset.mem_coe]

/-- Witness of C8: two POSTs with ids `[1]` and `[3]`. -/
theorem posts_with_distinct_ids_witness :
    (∀ q ∈ [(([1, 2] : GoString), (⟨[1], [2]⟩ : Item)), ([3, 4], ⟨[3], [4]⟩)],
      sampleDecoder q.1 = .ok q.2) ∧
    ([(([1, 2] : GoString), (⟨[1], [2]⟩ : Item)), ([3, 4], ⟨[3], [4]⟩)].map
      (fun q => q.2.ID)).Nodup ∧
    (let reqs := [(([1, 2] : GoString), (⟨[1], [2]⟩ : Item)), ([3, 4], ⟨[3], [4]⟩)]
     let final := (postEach sampleDecoder sortedOrder emptyStore (reqs.map Prod.fst)).1
     (∀ order : List (GoString × Item), order.Perm reqs →
      postEach sampleDecoder sortedOrder emptyStore (order.map Prod.fst)
        = (final, order.map (fun q => created q.2))) ∧
     (∀ schedule : List Nat,
      ((Pool.spawn (reqs.map Prod.fst)).run sampleDecoder schedule).finished = true →
      ((Pool.spawn (reqs.map Prod.fst)).run sampleDecoder schedule).items = final ∧
      ((Pool.spawn (reqs.map Prod.fst)).run sampleDecoder schedule).threads.map (fun t => t.w)
        = reqs.map (fun q => created q.2)) ∧
     (∀ (ro2 : RangeOrder) (path body : GoString), ∃ itemList : Slice Item,
      itemsHandler sampleDecoder ro2 final ResponseWriter.fresh ⟨MethodGet, path, body⟩
        = (final, ⟨some StatusOK, [Chunk.json (marshalItems itemList)]⟩) ∧
      (itemList.toList : Multiset Item) = ((reqs.map Prod.snd : List Item) : Multiset Item) ∧
      ∀ v : Item, v ∈ itemList.toList ↔ v ∈ reqs.map Prod.snd)) :=
  ⟨by simp [sampleDecoder], by decide,
    posts_with_distinct_ids sampleDecoder sortedOrder
      [([1, 2], ⟨[1], [2]⟩), ([3, 4], ⟨[3], [4]⟩)] (by simp [sampleDecoder]) (by decide)⟩

/-- An execution of two concurrent POSTs in which the goroutines alternate:
both return, and the shared map holds both items. -/
theorem interleaved_posts_finish :
    (Pool.run sampleDecoder (Pool.spawn [[1, 2], [3, 4]]) [0, 1, 1, 0, 1, 0]).finished = true ∧
    (Pool.run sampleDecoder (Pool.spawn [[1, 2], [3, 4]]) [0, 1, 1, 0, 1, 0]).items
      = (emptyStore.insert [3] ⟨[3], [4]⟩).insert [1] ⟨[1], [2]⟩ ∧
    (Pool.run sampleDecoder (Pool.spawn [[1, 2], [3, 4]]) [0, 1, 1, 0, 1]).finished = false := by
  decide

end ItemStore
